import Mathlib

/-!
Verification of the Bragg-disk detection core of py4DSTEM
(`process/braggdiskdetection/diskdetection.py`).

The thresholding component (`threshold_Braggpeaks`) is embedded over exact
rational arithmetic (ℚ stands for the Python floats; every operation used
there — comparison, subtraction, squaring, division — is rational).  The
Fourier-domain detection pipeline is embedded over ℝ/ℂ further below.

The `PointList`/`PointListArray` container and the numerical helpers
`get_cross_correlation_fk`, `get_maxima_2D`, `upsampled_correlation` and
`scipy.ndimage.gaussian_filter` are not part of the provided sources; they
are modelled from the spec where needed, and each such definition carries a
doc comment starting with `Modelled from the spec:`.
-/

set_option maxHeartbeats 1000000
set_option linter.unusedVariables false

open scoped Classical

/-- A row of a peak list: position `(qx, qy)` and correlation `intensity`
(spec §3, Peak: a tuple `(qx, qy, intensity)`). -/
structure Peak where
  qx : ℚ
  qy : ℚ
  intensity : ℚ
deriving DecidableEq

instance : Inhabited Peak := ⟨⟨0, 0, 0⟩⟩

/-- The descending-intensity order used by `pointlist.sort(coordinate='intensity',
order='descending')`. -/
def descIntensity (a b : Peak) : Prop := b.intensity ≤ a.intensity

instance : DecidableRel descIntensity :=
  fun a b => inferInstanceAs (Decidable (b.intensity ≤ a.intensity))

instance : IsTotal Peak descIntensity := ⟨fun a b => le_total b.intensity a.intensity⟩

instance : IsTrans Peak descIntensity := ⟨fun _ _ _ hab hbc => le_trans hbc hab⟩

/-- Modelled from the spec: `PointList.sort(coordinate='intensity', order='descending')`
(spec §4.4: "stable in-place sort of all rows by the named column"); the container
code is not in the provided sources.  Insertion sort is stable. -/
def sortIntensityDescending (pl : List Peak) : List Peak :=
  pl.insertionSort descIntensity

/-- Modelled from the spec: `PointList.remove_points(mask)` (spec §4.4: "rows marked
true in the boolean mask are deleted from all columns in lockstep"); the container
code is not in the provided sources. -/
def remove_points (pl : List Peak) (mask : List Bool) : List Peak :=
  ((pl.zip mask).filter (fun pb => !pb.2)).map Prod.fst

/-- `max(pointlist.data['intensity'])`: Python's `max` of the intensity column;
it raises on an empty sequence, modelled by `none`. -/
def maxIntensity (pl : List Peak) : Option ℚ :=
  (pl.map Peak.intensity).max?

/-- The squared Euclidean distance used by the spacing filter of
`threshold_Braggpeaks` (diskdetection.py lines 358-359). -/
def dist2 (p q : Peak) : ℚ := (p.qx - q.qx) ^ 2 + (p.qy - q.qy) ^ 2

/-- One iteration of the spacing-dedup sweep of `threshold_Braggpeaks`
(diskdetection.py lines 356-361): if row `i` is not already marked deleted,
mark every row `j` with squared distance to row `i` below `r2` — except the
rows `j ≤ i`, which the source zeroes out via `tooClose[:i+1] = False`,
rendered here as the conjunct `i < j`. -/
def spacingStep (r2 : ℚ) (pl : List Peak) (mask : List Bool) (i : ℕ) : List Bool :=
  if mask.getD i false then mask
  else (List.range pl.length).map (fun j =>
    mask.getD j false ||
      (decide (i < j) && decide (dist2 (pl.getD j default) (pl.getD i default) < r2)))

/-- The full deletion mask produced by the spacing-dedup loop of
`threshold_Braggpeaks` (diskdetection.py lines 355-361): iterate `i` over
`range(pointlist.length)` starting from an all-false mask. -/
def spacingDeleteMask (r2 : ℚ) (pl : List Peak) : List Bool :=
  (List.range pl.length).foldl (spacingStep r2 pl) (List.replicate pl.length false)

/-- The state of the deletion mask of the spacing-dedup loop after the first `k`
iterations (`i = 0, …, k-1`); `spacingDeleteMask` is `maskAfter` at `pl.length`. -/
def maskAfter (r2 : ℚ) (pl : List Peak) (k : ℕ) : List Bool :=
  (List.range k).foldl (spacingStep r2 pl) (List.replicate pl.length false)

/-- The intensity-threshold step of `threshold_Braggpeaks` (diskdetection.py
lines 346-350): guarded by `minRelativeIntensity is not False` (disabling value
`False` is rendered as `none`); deletes rows with `intensity / max < minRelativeIntensity`.
Python's `max` raises on an empty column, hence the `Option` result. -/
def intensityStep (minRelativeIntensity : Option ℚ) (pl : List Peak) : Option (List Peak) :=
  match minRelativeIntensity with
  | none => some pl
  | some t =>
    match maxIntensity pl with
    | none => none
    | some m => some (remove_points pl (pl.map (fun p => decide (p.intensity / m < t))))

/-- The spacing-filter block of `threshold_Braggpeaks` (diskdetection.py lines
352-362).  NOTE: the source guards this block with `if maxNumPeaks is not False:`
(line 353), not with `minPeakSpacing`; `r2 = minPeakSpacing**2` evaluates
`False**2 == 0` when `minPeakSpacing` is `False`, rendered by `Option.getD 0`. -/
def spacingBlock (minPeakSpacing : Option ℚ) (maxNumPeaks : Option ℕ) (pl : List Peak) :
    List Peak :=
  match maxNumPeaks with
  | none => pl
  | some _ =>
    remove_points pl (spacingDeleteMask ((minPeakSpacing.getD 0) ^ 2) pl)

/-- The max-count truncation block of `threshold_Braggpeaks` (diskdetection.py
lines 364-369): if `maxNumPeaks` is enabled and smaller than the current row
count, delete the rows with index `≥ maxNumPeaks`. -/
def truncStep (maxNumPeaks : Option ℕ) (pl : List Peak) : List Peak :=
  match maxNumPeaks with
  | none => pl
  | some k =>
    if k < pl.length then
      remove_points pl ((List.range pl.length).map (fun j => decide (k ≤ j)))
    else pl

/-- The pipeline of `threshold_Braggpeaks` on one cell, up to (excluding) the
truncation block: sort descending, intensity threshold, spacing filter. -/
def preTrunc (minRelativeIntensity minPeakSpacing : Option ℚ) (maxNumPeaks : Option ℕ)
    (pl : List Peak) : Option (List Peak) :=
  (intensityStep minRelativeIntensity (sortIntensityDescending pl)).map
    (spacingBlock minPeakSpacing maxNumPeaks)

/-- The per-cell body of `threshold_Braggpeaks` (diskdetection.py lines 343-369):
sort by intensity descending, then the three guarded filter blocks in order. -/
def thresholdCell (minRelativeIntensity minPeakSpacing : Option ℚ) (maxNumPeaks : Option ℕ)
    (pl : List Peak) : Option (List Peak) :=
  (preTrunc minRelativeIntensity minPeakSpacing maxNumPeaks pl).map (truncStep maxNumPeaks)

/-- `Option`-propagating map over a list: the loop of `threshold_Braggpeaks`
stops with an error as soon as one cell raises. -/
def optionMapList (f : α → Option β) : List α → Option (List β)
  | [] => some []
  | a :: as =>
    match f a with
    | none => none
    | some b =>
      match optionMapList f as with
      | none => none
      | some bs => some (b :: bs)

/-- `threshold_Braggpeaks` (diskdetection.py lines 327-371): apply the per-cell
pipeline to every cell of the grid, row-major.  A cell on which Python raises
(empty cell with the intensity threshold enabled) makes the whole call raise,
modelled by `none`.  The grid is a row-major list of rows of cells; the schema
assert of line 340 always holds in this typed embedding. -/
def threshold_Braggpeaks (minRelativeIntensity minPeakSpacing : Option ℚ)
    (maxNumPeaks : Option ℕ) (grid : List (List (List Peak))) :
    Option (List (List (List Peak))) :=
  optionMapList (optionMapList (thresholdCell minRelativeIntensity minPeakSpacing maxNumPeaks))
    grid

/-- A concrete ten-row peak list, already in descending-intensity order, used
to exercise the max-count truncation. -/
def tenPeaks : List Peak :=
  [⟨0, 0, 100⟩, ⟨10, 0, 95⟩, ⟨20, 0, 90⟩, ⟨30, 0, 85⟩, ⟨40, 0, 80⟩,
   ⟨50, 0, 75⟩, ⟨60, 0, 70⟩, ⟨70, 0, 65⟩, ⟨80, 0, 60⟩, ⟨90, 0, 55⟩]

/-! ### The Fourier-domain detection pipeline, over ℝ and ℂ -/

/-- Wrap an integer index onto `Fin n` (circular indexing). -/
def wrapIdx (n : ℕ) [NeZero n] (t : ℤ) : Fin n :=
  ⟨(t % (n : ℤ)).toNat, by
    have hn : (0 : ℤ) < (n : ℤ) := by
      exact_mod_cast Nat.pos_of_ne_zero (NeZero.ne n)
    have h1 : 0 ≤ t % (n : ℤ) := Int.emod_nonneg t (ne_of_gt hn)
    have h2 : t % (n : ℤ) < (n : ℤ) := Int.emod_lt_of_pos t hn
    omega⟩

/-- `np.fft.fft2`: the 2-dimensional discrete Fourier transform (numpy is a
third-party dependency; standard DFT semantics). -/
noncomputable def fft2 {n m : ℕ} (A : Fin n → Fin m → ℂ) (k : Fin n) (l : Fin m) : ℂ :=
  ∑ x : Fin n, ∑ y : Fin m,
    A x y * Complex.exp (-(2 * (Real.pi : ℂ) * Complex.I) *
      (((k.val * x.val : ℕ) : ℂ) / (n : ℂ) + ((l.val * y.val : ℕ) : ℂ) / (m : ℂ)))

/-- `np.fft.ifft2`: the inverse 2-dimensional DFT with `1/(n·m)` normalization. -/
noncomputable def ifft2 {n m : ℕ} (A : Fin n → Fin m → ℂ) (x : Fin n) (y : Fin m) : ℂ :=
  (∑ k : Fin n, ∑ l : Fin m,
    A k l * Complex.exp ((2 * (Real.pi : ℂ) * Complex.I) *
      (((k.val * x.val : ℕ) : ℂ) / (n : ℂ) + ((l.val * y.val : ℕ) : ℂ) / (m : ℂ)))) /
    ((n : ℂ) * (m : ℂ))

/-- `np.abs(m)**corrPower * np.exp(1j*np.angle(m))` applied entrywise
(diskdetection.py line 101; spec §4.1). -/
noncomputable def hybridPow (p : ℝ) (z : ℂ) : ℂ :=
  ((Complex.abs z ^ p : ℝ) : ℂ) * Complex.exp (Complex.I * (z.arg : ℂ))

/-- The complex hybrid-correlation array `ccc` of the multicorr branch
(diskdetection.py lines 100-101): `m = np.fft.fft2(DP) * probe_kernel_FT`,
`ccc = |m|^corrPower * exp(i*angle(m))`. -/
noncomputable def cccOf {n m : ℕ} (DP : Fin n → Fin m → ℝ)
    (probe_kernel_FT : Fin n → Fin m → ℂ) (corrPower : ℝ) (k : Fin n) (l : Fin m) : ℂ :=
  hybridPow corrPower (fft2 (fun x y => ((DP x y : ℝ) : ℂ)) k l * probe_kernel_FT k l)

/-- Modelled from the spec: `get_cross_correlation_fk` (not in the provided
sources; spec §4.1): the real part of the inverse transform of the hybrid
power spectrum.  For `corrPower = 1` this is exactly the multicorr-branch
computation of diskdetection.py lines 100-103 before clamping. -/
noncomputable def get_cross_correlation_fk {n m : ℕ} (DP : Fin n → Fin m → ℝ)
    (probe_kernel_FT : Fin n → Fin m → ℂ) (corrPower : ℝ) (x : Fin n) (y : Fin m) : ℝ :=
  (ifft2 (cccOf DP probe_kernel_FT corrPower) x y).re

/-- The clamped correlation surface `cc = np.maximum(cc, 0)` handed to the
Maxima Extractor in all three subpixel branches (diskdetection.py lines
82, 91 and 103). -/
noncomputable def ccOf {n m : ℕ} (DP : Fin n → Fin m → ℝ)
    (probe_kernel_FT : Fin n → Fin m → ℂ) (corrPower : ℝ) (x : Fin n) (y : Fin m) : ℝ :=
  max (get_cross_correlation_fk DP probe_kernel_FT corrPower x y) 0

/-- Modelled from the spec: the kernel radius of `scipy.ndimage.gaussian_filter`
(`int(truncate*sigma + 0.5)` with the scipy default `truncate = 4.0`). -/
noncomputable def gaussRadius (sigma : ℝ) : ℕ := ⌊4 * sigma + 1/2⌋₊

/-- Modelled from the spec: the normalized truncated Gaussian weight
`exp(-k²/(2σ²)) / Σⱼ exp(-j²/(2σ²))`, `j` ranging over the kernel window. -/
noncomputable def gaussWeight (sigma : ℝ) (k : ℤ) : ℝ :=
  Real.exp (-((k : ℝ) ^ 2) / (2 * sigma ^ 2)) /
    ∑ j ∈ Finset.Icc (-(gaussRadius sigma : ℤ)) (gaussRadius sigma : ℤ),
      Real.exp (-((j : ℝ) ^ 2) / (2 * sigma ^ 2))

/-- Modelled from the spec: `scipy.ndimage.gaussian_filter` — "Gaussian-smooth
the surface with the given standard deviation" (spec §4.2 step 1): separable
discrete convolution with the normalized truncated Gaussian kernel; this model
uses circular boundary handling. -/
noncomputable def gaussianFilter {n m : ℕ} [NeZero n] [NeZero m] (sigma : ℝ)
    (A : Fin n → Fin m → ℝ) (x : Fin n) (y : Fin m) : ℝ :=
  ∑ i ∈ Finset.Icc (-(gaussRadius sigma : ℤ)) (gaussRadius sigma : ℤ),
    ∑ j ∈ Finset.Icc (-(gaussRadius sigma : ℤ)) (gaussRadius sigma : ℤ),
      gaussWeight sigma i * gaussWeight sigma j *
        A (wrapIdx n ((x.val : ℤ) - i)) (wrapIdx m ((y.val : ℤ) - j))

/-- The eight offsets of an 8-connected pixel neighborhood. -/
def neighborOffsets : List (ℤ × ℤ) :=
  [(-1, -1), (-1, 0), (-1, 1), (0, -1), (0, 1), (1, -1), (1, 0), (1, 1)]

/-- The local one-dimensional paraboloid-vertex refinement along the first axis
(3-point parabola through the smoothed values; zero denominator yields a zero
offset under Lean's division convention). -/
noncomputable def polyFitX {n m : ℕ} [NeZero n] [NeZero m] (sm : Fin n → Fin m → ℝ)
    (x : Fin n) (y : Fin m) : ℝ :=
  (x.val : ℝ) +
    (sm (wrapIdx n ((x.val : ℤ) - 1)) y - sm (wrapIdx n ((x.val : ℤ) + 1)) y) /
      (2 * (sm (wrapIdx n ((x.val : ℤ) - 1)) y + sm (wrapIdx n ((x.val : ℤ) + 1)) y -
        2 * sm x y))

/-- The paraboloid-vertex refinement along the second axis. -/
noncomputable def polyFitY {n m : ℕ} [NeZero n] [NeZero m] (sm : Fin n → Fin m → ℝ)
    (x : Fin n) (y : Fin m) : ℝ :=
  (y.val : ℝ) +
    (sm x (wrapIdx m ((y.val : ℤ) - 1)) - sm x (wrapIdx m ((y.val : ℤ) + 1))) /
      (2 * (sm x (wrapIdx m ((y.val : ℤ) - 1)) + sm x (wrapIdx m ((y.val : ℤ) + 1)) -
        2 * sm x y))

/-- Modelled from the spec: the Maxima Extractor `get_maxima_2D` (not in the
provided sources; spec §4.2): Gaussian-smooth the surface, locate 8-connected
local maxima, discard maxima within `edgeBoundary` pixels of an edge, discard
maxima below `minRelativeIntensity` times the strongest remaining maximum, and
optionally refine positions with a local paraboloid fit; the spacing and count
policy is applied downstream (spec §4.2).  Returns `(x, y, intensity)` triples. -/
noncomputable def get_maxima_2D {n m : ℕ} [NeZero n] [NeZero m] (cc : Fin n → Fin m → ℝ)
    (sigma : ℝ) (edgeBoundary : ℕ) (minRelativeIntensity minSpacing : ℝ)
    (maxNumPeaks : ℕ) (subpix : Bool) : List (ℝ × ℝ × ℝ) :=
  let sm := gaussianFilter sigma cc
  let pixels := (List.finRange n).flatMap (fun x => (List.finRange m).map (fun y => (x, y)))
  let cands := pixels.filter (fun q =>
    neighborOffsets.all (fun o =>
      decide (sm (wrapIdx n ((q.1.val : ℤ) + o.1)) (wrapIdx m ((q.2.val : ℤ) + o.2)) <
        sm q.1 q.2)))
  let inner := cands.filter (fun q =>
    decide (edgeBoundary ≤ q.1.val) && decide (q.1.val + edgeBoundary < n) &&
    decide (edgeBoundary ≤ q.2.val) && decide (q.2.val + edgeBoundary < m))
  let maxI := (inner.map (fun q => sm q.1 q.2)).foldr max 0
  let strong := inner.filter (fun q => decide (minRelativeIntensity * maxI ≤ sm q.1 q.2))
  strong.map (fun q =>
    if subpix then (polyFitX sm q.1 q.2, polyFitY sm q.1 q.2, sm q.1 q.2)
    else ((q.1.val : ℝ), (q.2.val : ℝ), sm q.1 q.2))

/-- The inverse transform of `ccc` evaluated at a real-valued (off-grid) shift —
the quantity a localized upsampled DFT computes. -/
noncomputable def dftShiftValue {n m : ℕ} (ccc : Fin n → Fin m → ℂ) (a b : ℝ) : ℝ :=
  ((∑ k : Fin n, ∑ l : Fin m,
    ccc k l * Complex.exp ((2 * (Real.pi : ℂ) * Complex.I) *
      ((((k.val : ℝ) * a / (n : ℝ) + (l.val : ℝ) * b / (m : ℝ) : ℝ)) : ℂ))) /
    ((n : ℂ) * (m : ℂ))).re

/-- Pick the list element maximizing `f`, scanning left to right (a strictly
greater value replaces the incumbent). -/
noncomputable def argmaxList {α : Type} (f : α → ℝ) (a0 : α) (l : List α) : α :=
  l.foldl (fun acc q => if f acc < f q then q else acc) a0

/-- Modelled from the spec: the DFT Upsampler `upsampled_correlation` (not in
the provided sources; spec §4.3): evaluate the correlation on an upsampled
neighborhood (spacing `1/upsample_factor`, radius one pixel) around the
already half-pixel-rounded estimate via a localized DFT, and return the
coordinates attaining the maximum; no intensity is returned. -/
noncomputable def upsampled_correlation {n m : ℕ} (ccc : Fin n → Fin m → ℂ)
    (upsample_factor : ℕ) (xyShift : ℝ × ℝ) : ℝ × ℝ :=
  let cands := (List.range (2 * upsample_factor + 1)).flatMap (fun a =>
    (List.range (2 * upsample_factor + 1)).map (fun b =>
      (xyShift.1 + ((a : ℝ) - (upsample_factor : ℝ)) / (upsample_factor : ℝ),
       xyShift.2 + ((b : ℝ) - (upsample_factor : ℝ)) / (upsample_factor : ℝ))))
  argmaxList (fun q => dftShiftValue ccc q.1 q.2) xyShift cands

/-- The column type tag of a PointList schema; `float` is the only type the
detection core declares. -/
inductive ColType
  | float
deriving DecidableEq

/-- A detected peak row over ℝ (the Fourier pipeline works in real arithmetic). -/
structure RPeak where
  qx : ℝ
  qy : ℝ
  intensity : ℝ

/-- Modelled from the spec: the `PointList` container (spec §3, §4.4) — the
declared column schema plus the row data (rows of the fixed detection schema). -/
structure RPointList where
  coordinates : List (String × ColType)
  data : List RPeak

/-- The schema `[('qx', float), ('qy', float), ('intensity', float)]` declared
by the detection orchestrators (diskdetection.py lines 127 and 296). -/
def braggCoords : List (String × ColType) :=
  [("qx", ColType.float), ("qy", ColType.float), ("intensity", ColType.float)]

/-- Modelled from the spec: the `PointListArray` container (spec §3, §4.4):
fixed shape, shared schema, row-major grid of cells. -/
structure RPointListArray where
  shape : ℕ × ℕ
  coordinates : List (String × ColType)
  cells : List (List RPointList)

/-- The error taxonomy of the detection core (spec §7). -/
inductive DetectError
  | invalidConfiguration
deriving DecidableEq

/-- The result of `find_Bragg_disks_single_DP_FK`: the peaks `PointList` and,
when `return_cc` is set, the returned correlation surface. -/
structure FBDResult (n m : ℕ) where
  peaks : RPointList
  cc : Option (Fin n → Fin m → ℝ)

/-- `find_Bragg_disks_single_DP_FK` (diskdetection.py lines 16-136): assert the
subpixel mode first (line 78), compute the clamped correlation surface, run the
Maxima Extractor (subpixel fitting off for 'none', on for 'poly' and
'multicorr'), refine positions (not intensities) per peak by DFT upsampling in
the 'multicorr' branch (lines 112-123), append the detected rows to the
caller-supplied or fresh peaks PointList (lines 125-131), and return the
Gaussian-smoothed surface alongside when `return_cc` is set (lines 133-136). -/
noncomputable def find_Bragg_disks_single_DP_FK {n m : ℕ} [NeZero n] [NeZero m]
    (DP : Fin n → Fin m → ℝ) (probe_kernel_FT : Fin n → Fin m → ℂ)
    (corrPower sigma : ℝ) (edgeBoundary : ℕ) (minRelativeIntensity minPeakSpacing : ℝ)
    (maxNumPeaks : ℕ) (subpixel : String) (upsample_factor : ℕ) (return_cc : Bool)
    (peaks : Option RPointList) : Except DetectError (FBDResult n m) :=
  if subpixel ∈ (["none", "poly", "multicorr"] : List String) then
    let cc := ccOf DP probe_kernel_FT corrPower
    let maxima :=
      if subpixel = "none" then
        get_maxima_2D cc sigma edgeBoundary minRelativeIntensity minPeakSpacing
          maxNumPeaks false
      else if subpixel = "poly" then
        get_maxima_2D cc sigma edgeBoundary minRelativeIntensity minPeakSpacing
          maxNumPeaks true
      else
        (get_maxima_2D cc sigma edgeBoundary minRelativeIntensity minPeakSpacing
          maxNumPeaks true).map (fun t =>
            let s := upsampled_correlation (cccOf DP probe_kernel_FT corrPower)
              upsample_factor
              (((round (t.1 * 2) : ℤ) : ℝ) / 2, ((round (t.2.1 * 2) : ℤ) : ℝ) / 2)
            (s.1, s.2, t.2.2))
    let pl0 := peaks.getD (RPointList.mk braggCoords [])
    Except.ok
      (FBDResult.mk
        (RPointList.mk pl0.coordinates
          (pl0.data ++ maxima.map (fun t => RPeak.mk t.1 t.2.1 t.2.2)))
        (if return_cc then some (gaussianFilter sigma cc) else none))
  else Except.error DetectError.invalidConfiguration

/-- The correlation-surface component of a detection result (`none` on error). -/
def resultCC {n m : ℕ} : Except DetectError (FBDResult n m) → Option (Fin n → Fin m → ℝ)
  | Except.ok r => r.cc
  | Except.error _ => none

/-- The 4-dimensional data cube: a scan grid `(R_Nx, R_Ny)` of diffraction
patterns (spec §6). -/
structure DataCube (rn rm qn qm : ℕ) where
  data : Fin rn → Fin rm → Fin qn → Fin qm → ℝ

/-- `Except`-propagating map over a list: the scan loop aborts on the first
raised error. -/
def exceptMapList {α β ε : Type} (f : α → Except ε β) : List α → Except ε (List β)
  | [] => Except.ok []
  | a :: as =>
    match f a with
    | Except.error e => Except.error e
    | Except.ok b =>
      match exceptMapList f as with
      | Except.error e => Except.error e
      | Except.ok bs => Except.ok (b :: bs)

/-- `find_Bragg_disks` (diskdetection.py lines 257-324): create the peaks
`PointListArray` with the declared schema and the scan-grid shape, compute the
probe-kernel FT `np.conj(np.fft.fft2(probe))`, and run single-pattern detection
at every scan position in row-major order, appending into the corresponding
(initially empty) cell. -/
noncomputable def find_Bragg_disks {rn rm qn qm : ℕ} [NeZero qn] [NeZero qm]
    (dc : DataCube rn rm qn qm) (probe : Fin qn → Fin qm → ℝ)
    (corrPower sigma : ℝ) (edgeBoundary : ℕ) (minRelativeIntensity minPeakSpacing : ℝ)
    (maxNumPeaks : ℕ) (subpixel : String) (upsample_factor : ℕ) :
    Except DetectError RPointListArray :=
  match exceptMapList (fun rx =>
      exceptMapList (fun ry =>
        Except.map FBDResult.peaks
          (find_Bragg_disks_single_DP_FK (dc.data rx ry)
            (fun k l => (starRingEnd ℂ) (fft2 (fun x y => ((probe x y : ℝ) : ℂ)) k l))
            corrPower sigma edgeBoundary minRelativeIntensity minPeakSpacing maxNumPeaks
            subpixel upsample_factor false (some (RPointList.mk braggCoords []))))
        (List.finRange rm))
      (List.finRange rn) with
  | Except.error e => Except.error e
  | Except.ok cells => Except.ok (RPointListArray.mk (rn, rm) braggCoords cells)

/-- A 2×2 diffraction pattern holding a single unit impulse at the origin; its
clamped cross correlation against the all-ones kernel is the same impulse. -/
noncomputable def deltaDP : Fin 2 → Fin 2 → ℝ := fun x y => if x = 0 ∧ y = 0 then 1 else 0

/-- The all-ones 2×2 probe-kernel Fourier transform. -/
noncomputable def onesKernelFT : Fin 2 → Fin 2 → ℂ := fun _ _ => 1

/-- The fraction of the (radius-8, σ = 2) Gaussian kernel mass landing on
column 0 of a 2-periodic grid; the smoothed impulse has central value
`deltaMass²`. -/
noncomputable def deltaMass : ℝ :=
  ∑ i ∈ Finset.Icc (-(8:ℤ)) 8,
    gaussWeight 2 i * (if wrapIdx 2 (-i) = 0 then (1:ℝ) else 0)

/-! ### Lemmas about the spacing-dedup sweep -/

theorem maskAfter_zero (r2 : ℚ) (pl : List Peak) :
    maskAfter r2 pl 0 = List.replicate pl.length false := rfl

theorem maskAfter_succ (r2 : ℚ) (pl : List Peak) (k : ℕ) :
    maskAfter r2 pl (k + 1) = spacingStep r2 pl (maskAfter r2 pl k) k := by
  unfold maskAfter
  rw [List.range_succ, List.foldl_append]
  rfl

theorem spacingDeleteMask_eq_maskAfter (r2 : ℚ) (pl : List Peak) :
    spacingDeleteMask r2 pl = maskAfter r2 pl pl.length := rfl

theorem spacingStep_length {r2 : ℚ} {pl : List Peak} {mask : List Bool}
    (h : mask.length = pl.length) (i : ℕ) :
    (spacingStep r2 pl mask i).length = pl.length := by
  unfold spacingStep
  split
  · exact h
  · simp

theorem maskAfter_length (r2 : ℚ) (pl : List Peak) (k : ℕ) :
    (maskAfter r2 pl k).length = pl.length := by
  induction k with
  | zero => simp [maskAfter]
  | succ k ih =>
    rw [maskAfter_succ]
    exact spacingStep_length ih k

theorem getD_range_map (f : ℕ → Bool) {j n : ℕ} (hj : j < n) :
    ((List.range n).map f).getD j false = f j := by
  rw [List.getD_eq_getElem?_getD, List.getElem?_map, List.getElem?_range hj]
  rfl

theorem getD_oob {l : List Bool} {j : ℕ} (h : l.length ≤ j) : l.getD j false = false :=
  List.getD_eq_default _ _ h

theorem getD_replicate_false {n j : ℕ} : (List.replicate n false).getD j false = false := by
  rcases Nat.lt_or_ge j n with h | h
  · rw [List.getD_eq_getElem?_getD, List.getElem?_replicate]
    simp [h]
  · exact getD_oob (by simpa using h)

theorem spacingStep_getD {r2 : ℚ} {pl : List Peak} {mask : List Bool}
    {i j : ℕ} (hj : j < pl.length) :
    (spacingStep r2 pl mask i).getD j false =
      if mask.getD i false then mask.getD j false
      else mask.getD j false ||
        (decide (i < j) && decide (dist2 (pl.getD j default) (pl.getD i default) < r2)) := by
  unfold spacingStep
  by_cases hc : mask.getD i false
  · rw [if_pos hc, if_pos hc]
  · rw [if_neg hc, if_neg hc, getD_range_map _ hj]

theorem spacingStep_getD_frozen {r2 : ℚ} {pl : List Peak} {mask : List Bool}
    (h : mask.length = pl.length) {i j : ℕ} (hji : j ≤ i) :
    (spacingStep r2 pl mask i).getD j false = mask.getD j false := by
  by_cases hj : j < pl.length
  · rw [spacingStep_getD hj]
    by_cases hc : mask.getD i false
    · rw [if_pos hc]
    · rw [if_neg hc]
      have hnb : ¬ i < j := not_lt.mpr hji
      simp [hnb]
  · push_neg at hj
    rw [getD_oob (by rw [spacingStep_length h]; exact hj), getD_oob (h ▸ hj)]

theorem spacingStep_getD_mono {r2 : ℚ} {pl : List Peak} {mask : List Bool}
    (h : mask.length = pl.length) {i j : ℕ} (ht : mask.getD j false = true) :
    (spacingStep r2 pl mask i).getD j false = true := by
  have hj : j < pl.length := by
    by_contra hge
    push_neg at hge
    rw [getD_oob (h ▸ hge)] at ht
    exact Bool.false_ne_true ht
  rw [spacingStep_getD hj]
  by_cases hc : mask.getD i false
  · rw [if_pos hc]
    exact ht
  · rw [if_neg hc, ht]
    rfl

theorem maskAfter_frozen (r2 : ℚ) (pl : List Peak) {j k m : ℕ} (hjk : j ≤ k) (hkm : k ≤ m) :
    (maskAfter r2 pl m).getD j false = (maskAfter r2 pl k).getD j false := by
  induction m with
  | zero =>
    cases Nat.le_zero.mp hkm
    rfl
  | succ m ih =>
    rcases Nat.lt_or_ge k (m + 1) with hlt | hge
    · have hkm2 : k ≤ m := Nat.lt_succ_iff.mp hlt
      rw [maskAfter_succ,
        spacingStep_getD_frozen (maskAfter_length r2 pl m) (le_trans hjk hkm2), ih hkm2]
    · have hk : k = m + 1 := le_antisymm hkm hge
      subst hk
      rfl

theorem maskAfter_mono (r2 : ℚ) (pl : List Peak) {j k m : ℕ} (hkm : k ≤ m)
    (ht : (maskAfter r2 pl k).getD j false = true) :
    (maskAfter r2 pl m).getD j false = true := by
  induction m with
  | zero =>
    cases Nat.le_zero.mp hkm
    exact ht
  | succ m ih =>
    rcases Nat.lt_or_ge k (m + 1) with hlt | hge
    · rw [maskAfter_succ]
      exact spacingStep_getD_mono (maskAfter_length r2 pl m) (ih (Nat.lt_succ_iff.mp hlt))
    · have hk : k = m + 1 := le_antisymm hkm hge
      subst hk
      exact ht

theorem maskAfter_true_char (r2 : ℚ) (pl : List Peak) :
    ∀ k, k ≤ pl.length → ∀ j, (maskAfter r2 pl k).getD j false = true →
      ∃ i, i < j ∧ (spacingDeleteMask r2 pl).getD i false = false ∧
        dist2 (pl.getD j default) (pl.getD i default) < r2 := by
  intro k
  induction k with
  | zero =>
    intro _ j hj
    rw [maskAfter_zero, getD_replicate_false] at hj
    exact absurd hj Bool.false_ne_true
  | succ k ih =>
    intro hk j hj
    have hk2 : k ≤ pl.length := Nat.le_of_succ_le hk
    rw [maskAfter_succ] at hj
    have hjlt : j < pl.length := by
      by_contra hge
      push_neg at hge
      rw [getD_oob (by rw [spacingStep_length (maskAfter_length r2 pl k)]; exact hge)] at hj
      exact Bool.false_ne_true hj
    rw [spacingStep_getD hjlt] at hj
    by_cases hc : (maskAfter r2 pl k).getD k false
    · rw [if_pos hc] at hj
      exact ih hk2 j hj
    · rw [if_neg hc] at hj
      simp only [Bool.or_eq_true, Bool.and_eq_true, decide_eq_true_eq] at hj
      rcases hj with hl | ⟨h1, h2⟩
      · exact ih hk2 j hl
      · refine ⟨k, h1, ?_, h2⟩
        rw [spacingDeleteMask_eq_maskAfter,
          maskAfter_frozen r2 pl (le_refl k) hk2]
        simpa using hc

theorem spacingDeleteMask_true_of (r2 : ℚ) (pl : List Peak) {i j : ℕ} (hj : j < pl.length)
    (hij : i < j) (hfi : (spacingDeleteMask r2 pl).getD i false = false)
    (hd : dist2 (pl.getD j default) (pl.getD i default) < r2) :
    (spacingDeleteMask r2 pl).getD j false = true := by
  have hin : i < pl.length := lt_trans hij hj
  have h1 : (maskAfter r2 pl i).getD i false = false := by
    rw [spacingDeleteMask_eq_maskAfter] at hfi
    rw [← maskAfter_frozen r2 pl (le_refl i) (le_of_lt hin)]
    exact hfi
  have hcond : ¬ ((maskAfter r2 pl i).getD i false = true) := by
    rw [h1]
    simp
  have h2 : (maskAfter r2 pl (i + 1)).getD j false = true := by
    rw [maskAfter_succ, spacingStep_getD hj, if_neg hcond]
    have hdec : (decide (i < j) &&
        decide (dist2 (pl.getD j default) (pl.getD i default) < r2)) = true := by
      rw [decide_eq_true hij, decide_eq_true hd]
      rfl
    rw [hdec, Bool.or_true]
  rw [spacingDeleteMask_eq_maskAfter]
  exact maskAfter_mono r2 pl (Nat.succ_le_of_lt hin) h2

/-! ### Lemmas about `remove_points`, sorting and truncation -/

theorem remove_points_nil (mask : List Bool) : remove_points [] mask = [] := by
  simp [remove_points]

theorem remove_points_nil_mask (pl : List Peak) : remove_points pl [] = [] := by
  simp [remove_points]

theorem remove_points_cons (p : Peak) (tl : List Peak) (b : Bool) (ms : List Bool) :
    remove_points (p :: tl) (b :: ms) =
      if b then remove_points tl ms else p :: remove_points tl ms := by
  cases b <;> simp [remove_points]

theorem remove_points_map_filter (pl : List Peak) (f : Peak → Bool) :
    remove_points pl (pl.map f) = pl.filter (fun p => !f p) := by
  induction pl with
  | nil => rfl
  | cons p tl ih =>
    rw [List.map_cons, remove_points_cons]
    cases hf : f p <;> simp [hf, ih, List.filter_cons]

theorem remove_points_sublist (pl : List Peak) (mask : List Bool) :
    (remove_points pl mask).Sublist pl := by
  induction pl generalizing mask with
  | nil => simp [remove_points_nil]
  | cons p tl ih =>
    cases mask with
    | nil => simp [remove_points_nil_mask]
    | cons b ms =>
      rw [remove_points_cons]
      cases b
      · simpa using (ih ms).cons₂ p
      · simpa using (ih ms).cons p

theorem remove_points_tail_mask (pl : List Peak) (k : ℕ) :
    remove_points pl ((List.range pl.length).map (fun j => decide (k ≤ j))) = pl.take k := by
  induction pl generalizing k with
  | nil => simp [remove_points_nil]
  | cons p tl ih =>
    rw [List.length_cons, List.range_succ_eq_map, List.map_cons, remove_points_cons,
      List.map_map]
    cases k with
    | zero =>
      rw [if_pos (by simp)]
      have hm : ((fun j => decide (0 ≤ j)) ∘ Nat.succ) = (fun j => decide (0 ≤ j)) := by
        funext j
        simp
      rw [hm, ih 0]
      simp
    | succ k =>
      rw [if_neg (by simp)]
      have hm : ((fun j => decide (k + 1 ≤ j)) ∘ Nat.succ) = (fun j => decide (k ≤ j)) := by
        funext j
        simp [Nat.succ_le_succ_iff]
      rw [hm, ih k]
      rfl

theorem truncStep_eq_take (k : ℕ) (pl : List Peak) : truncStep (some k) pl = pl.take k := by
  show (if k < pl.length then
      remove_points pl ((List.range pl.length).map (fun j => decide (k ≤ j)))
    else pl) = pl.take k
  by_cases h : k < pl.length
  · rw [if_pos h, remove_points_tail_mask]
  · rw [if_neg h, List.take_of_length_le (le_of_not_lt h)]

theorem sorted_sortIntensityDescending (pl : List Peak) :
    (sortIntensityDescending pl).Sorted descIntensity :=
  List.sorted_insertionSort descIntensity pl

theorem intensityStep_sublist {mr : Option ℚ} {pl u : List Peak}
    (h : intensityStep mr pl = some u) : u.Sublist pl := by
  unfold intensityStep at h
  cases mr with
  | none =>
    cases h
    exact List.Sublist.refl _
  | some t =>
    cases hm : maxIntensity pl with
    | none =>
      rw [hm] at h
      cases h
    | some m =>
      rw [hm] at h
      cases h
      exact remove_points_sublist _ _

theorem spacingBlock_sublist (mps : Option ℚ) (mnp : Option ℕ) (pl : List Peak) :
    (spacingBlock mps mnp pl).Sublist pl := by
  unfold spacingBlock
  cases mnp
  · exact List.Sublist.refl _
  · exact remove_points_sublist _ _

theorem preTrunc_sorted {mr mps : Option ℚ} {mnp : Option ℕ} {pl s : List Peak}
    (h : preTrunc mr mps mnp pl = some s) : s.Sorted descIntensity := by
  unfold preTrunc at h
  cases hi : intensityStep mr (sortIntensityDescending pl) with
  | none =>
    rw [hi] at h
    cases h
  | some u =>
    rw [hi] at h
    cases h
    exact List.Pairwise.sublist
      ((spacingBlock_sublist mps mnp u).trans (intensityStep_sublist hi))
      (sorted_sortIntensityDescending pl)

/-! ### Further helper lemmas -/

theorem optionMapList_none_of_mem {α β : Type} {f : α → Option β} {l : List α} {a : α}
    (ha : a ∈ l) (hfa : f a = none) : optionMapList f l = none := by
  induction l with
  | nil => cases ha
  | cons b bs ih =>
    rcases List.mem_cons.mp ha with rfl | hmem
    · simp [optionMapList, hfa]
    · cases hb : f b
      · simp [optionMapList, hb]
      · simp [optionMapList, hb, ih hmem]

theorem thresholdCell_empty_none (t : ℚ) (mps : Option ℚ) (mnp : Option ℕ) :
    thresholdCell (some t) mps mnp [] = none := rfl

/-! ### Claims about the Threshold/Dedup Post-Processor -/

/-- C1 (the code violates the claim): with `minPeakSpacing` enabled (10) and
`maxNumPeaks` disabled, `threshold_Braggpeaks` leaves two peaks at squared
distance 1 < 10² untouched — the minimum-spacing filter is NOT applied, because
the source guards the spacing block with `if maxNumPeaks is not False:`
(diskdetection.py line 353) instead of `minPeakSpacing is not False`, contrary
to the docstring "To skip a threshold, set that parameter to False". -/
theorem C1_spacing_guard_uses_maxNumPeaks :
    threshold_Braggpeaks none (some 10) none [[[⟨0, 0, 10⟩, ⟨1, 0, 5⟩]]] =
      some [[[⟨0, 0, 10⟩, ⟨1, 0, 5⟩]]] := by
  norm_num [threshold_Braggpeaks, optionMapList, thresholdCell, preTrunc, intensityStep,
    spacingBlock, truncStep, sortIntensityDescending, List.insertionSort, List.orderedInsert,
    descIntensity]

/-- C3: in the spacing-dedup sweep of `threshold_Braggpeaks` a row `j` is deleted
iff some earlier not-itself-deleted row `i < j` lies at squared distance strictly
below `minPeakSpacing²` (so a surviving processed row is never deleted later and
no row deletes itself); in particular, for two peaks with intensities 10 and 5
the intensity-10 peak alone survives when their squared distance is below
`minPeakSpacing²`, and both survive when it is not. -/
theorem C3_greedy_dedup :
    (∀ (r2 : ℚ) (pl : List Peak) (j : ℕ), j < pl.length →
      ((spacingDeleteMask r2 pl).getD j false = true ↔
        ∃ i, i < j ∧ (spacingDeleteMask r2 pl).getD i false = false ∧
          dist2 (pl.getD j default) (pl.getD i default) < r2)) ∧
    (∀ (mps : ℚ) (p q : Peak), p.intensity = 10 → q.intensity = 5 →
      dist2 q p < mps ^ 2 →
      thresholdCell none (some mps) (some 70) [q, p] = some [p]) ∧
    (∀ (mps : ℚ) (p q : Peak), p.intensity = 10 → q.intensity = 5 →
      ¬ dist2 q p < mps ^ 2 →
      thresholdCell none (some mps) (some 70) [q, p] = some [p, q]) := by
  refine ⟨?_, ?_, ?_⟩
  · intro r2 pl j hj
    constructor
    · intro hdel
      exact maskAfter_true_char r2 pl pl.length (le_refl _) j
        (by rwa [spacingDeleteMask_eq_maskAfter] at hdel)
    · rintro ⟨i, h1, h2, h3⟩
      exact spacingDeleteMask_true_of r2 pl hj h1 h2 h3
  · intro mps p q hp hq hd
    have hsort : sortIntensityDescending [q, p] = [p, q] := by
      norm_num [sortIntensityDescending, List.insertionSort, List.orderedInsert,
        descIntensity, hp, hq]
    have hstep0 : spacingStep (mps ^ 2) [p, q] [false, false] 0 =
        [false, decide (dist2 q p < mps ^ 2)] := by
      simp [spacingStep, List.range_succ]
    have hmask : spacingDeleteMask (mps ^ 2) [p, q] = [false, true] := by
      show (List.range 2).foldl (spacingStep (mps ^ 2) [p, q]) [false, false] = [false, true]
      rw [show List.range 2 = [0, 1] from rfl]
      rw [List.foldl_cons, List.foldl_cons, List.foldl_nil, hstep0, decide_eq_true hd]
      rw [spacingStep, if_pos (by simp)]
    rw [thresholdCell, preTrunc, hsort]
    rw [show intensityStep none [p, q] = some [p, q] from rfl]
    rw [Option.map_some', Option.map_some']
    rw [show spacingBlock (some mps) (some 70) [p, q] =
      remove_points [p, q] (spacingDeleteMask (mps ^ 2) [p, q]) from rfl]
    rw [hmask]
    rw [show remove_points [p, q] [false, true] = [p] from by simp [remove_points]]
    rw [truncStep_eq_take]
    rfl
  · intro mps p q hp hq hd
    have hsort : sortIntensityDescending [q, p] = [p, q] := by
      norm_num [sortIntensityDescending, List.insertionSort, List.orderedInsert,
        descIntensity, hp, hq]
    have hstep0 : spacingStep (mps ^ 2) [p, q] [false, false] 0 =
        [false, decide (dist2 q p < mps ^ 2)] := by
      simp [spacingStep, List.range_succ]
    have hstep1 : spacingStep (mps ^ 2) [p, q] [false, false] 1 = [false, false] := by
      simp [spacingStep, List.range_succ]
    have hmask : spacingDeleteMask (mps ^ 2) [p, q] = [false, false] := by
      show (List.range 2).foldl (spacingStep (mps ^ 2) [p, q]) [false, false] = [false, false]
      rw [show List.range 2 = [0, 1] from rfl]
      rw [List.foldl_cons, List.foldl_cons, List.foldl_nil, hstep0, decide_eq_false hd,
        hstep1]
    rw [thresholdCell, preTrunc, hsort]
    rw [show intensityStep none [p, q] = some [p, q] from rfl]
    rw [Option.map_some', Option.map_some']
    rw [show spacingBlock (some mps) (some 70) [p, q] =
      remove_points [p, q] (spacingDeleteMask (mps ^ 2) [p, q]) from rfl]
    rw [hmask]
    rw [show remove_points [p, q] [false, false] = [p, q] from by simp [remove_points]]
    rw [truncStep_eq_take]
    rfl

/-- C3 witness: at squared distance 9 < 5² = 25 only the intensity-10 peak
survives; at squared distance 49 ≥ 25 both survive. -/
theorem C3_greedy_dedup_witness :
    thresholdCell none (some 5) (some 70) [⟨3, 0, 5⟩, ⟨0, 0, 10⟩] = some [⟨0, 0, 10⟩] ∧
    thresholdCell none (some 5) (some 70) [⟨7, 0, 5⟩, ⟨0, 0, 10⟩] =
      some [⟨0, 0, 10⟩, ⟨7, 0, 5⟩] :=
  ⟨C3_greedy_dedup.2.1 5 ⟨0, 0, 10⟩ ⟨3, 0, 5⟩ rfl rfl (by norm_num [dist2]),
   C3_greedy_dedup.2.2 5 ⟨0, 0, 10⟩ ⟨7, 0, 5⟩ rfl rfl (by norm_num [dist2])⟩

/-- C4: with the intensity threshold enabled and the cell's maximum intensity
`m > 0`, `threshold_Braggpeaks` deletes exactly the rows with intensity strictly
below `minRelativeIntensity * m` and keeps all other rows (in sorted order);
stated with the other two filters disabled so that nothing else is removed. -/
theorem C4_intensity_threshold (t m : ℚ) (mps : Option ℚ) (pl : List Peak)
    (hm : maxIntensity (sortIntensityDescending pl) = some m) (hpos : 0 < m) :
    thresholdCell (some t) mps none pl =
      some ((sortIntensityDescending pl).filter
        (fun p => !decide (p.intensity < t * m))) := by
  have hi : intensityStep (some t) (sortIntensityDescending pl) =
      some (remove_points (sortIntensityDescending pl)
        ((sortIntensityDescending pl).map (fun p => decide (p.intensity / m < t)))) := by
    unfold intensityStep
    rw [hm]
  rw [thresholdCell, preTrunc, hi, Option.map_some', Option.map_some']
  rw [show (spacingBlock mps none = id) from rfl, id_eq,
    show (truncStep none = id) from rfl, id_eq]
  rw [remove_points_map_filter]
  refine congrArg some (List.filter_congr ?_)
  intro p _
  exact congrArg Bool.not (decide_eq_decide.mpr (div_lt_iff₀ hpos))

/-- C4 witness: intensities [100, 40, 3] with `minRelativeIntensity = 1/20 = 0.05`;
only the intensity-3 row is removed. -/
theorem C4_intensity_threshold_witness :
    thresholdCell (some (1/20)) none none [⟨0, 0, 100⟩, ⟨1, 1, 40⟩, ⟨2, 2, 3⟩] =
      some [⟨0, 0, 100⟩, ⟨1, 1, 40⟩] := by
  rw [C4_intensity_threshold (1/20) 100 none _ (by decide) (by decide)]
  norm_num [sortIntensityDescending, List.insertionSort, List.orderedInsert, descIntensity,
    List.filter]

/-- C5: when `maxNumPeaks = k` is enabled and `s` is the list of rows surviving
the earlier intensity and spacing filters, the cell becomes `s.take k`: the top
`k` rows in descending-intensity order when `k < s.length` (computed from the
current surviving count `s.length`), and `s` unchanged when `s.length ≤ k`. -/
theorem C5_max_count_truncation (mr mps : Option ℚ) (k : ℕ) (pl s : List Peak)
    (hpre : preTrunc mr mps (some k) pl = some s) :
    thresholdCell mr mps (some k) pl = some (s.take k) ∧
      (s.take k).Sorted descIntensity ∧
      (k < s.length → (s.take k).length = k) ∧
      (s.length ≤ k → s.take k = s) := by
  refine ⟨?_, ?_, ?_, ?_⟩
  · rw [thresholdCell, hpre, Option.map_some', truncStep_eq_take]
  · exact List.Pairwise.sublist (List.take_sublist k s) (preTrunc_sorted hpre)
  · intro h
    rw [List.length_take]
    omega
  · intro h
    exact List.take_of_length_le h

/-- C10: the post-processor is not total on grids containing an empty cell —
with `minRelativeIntensity` enabled, Python's `max` of the empty intensity
column raises, so the whole `threshold_Braggpeaks` call errors out. -/
theorem C10_empty_cell_raises (t : ℚ) (mps : Option ℚ) (mnp : Option ℕ)
    (grid : List (List (List Peak))) (row : List (List Peak))
    (hrow : row ∈ grid) (hcell : ([] : List Peak) ∈ row) :
    threshold_Braggpeaks (some t) mps mnp grid = none := by
  unfold threshold_Braggpeaks
  exact optionMapList_none_of_mem hrow
    (optionMapList_none_of_mem hcell (thresholdCell_empty_none t mps mnp))

/-- C10 witness: a 1×1 grid whose only cell is empty. -/
theorem C10_empty_cell_raises_witness :
    threshold_Braggpeaks (some 1) none none [[[]]] = none :=
  C10_empty_cell_raises 1 none none [[[]]] [[]] (by decide) (by decide)

/-- C5 witness: 10 surviving peaks sorted descending with `maxNumPeaks = 5`:
exactly the top 5 remain, still in descending order. -/
theorem C5_max_count_truncation_witness :
    thresholdCell none none (some 5) tenPeaks = some (tenPeaks.take 5) ∧
      (tenPeaks.take 5).Sorted descIntensity ∧
      (5 < tenPeaks.length → (tenPeaks.take 5).length = 5) ∧
      (tenPeaks.length ≤ 5 → tenPeaks.take 5 = tenPeaks) :=
  C5_max_count_truncation none none 5 tenPeaks tenPeaks (by
    norm_num [tenPeaks, preTrunc, intensityStep, spacingBlock, sortIntensityDescending,
      List.insertionSort, List.orderedInsert, descIntensity, spacingDeleteMask, spacingStep,
      List.range_succ, List.foldl_append, List.foldl_cons, List.foldl_nil, remove_points,
      dist2])

/-! ### Lemmas and claims about the detection orchestrator -/

theorem exceptMapList_ok {α β ε : Type} (f : α → Except ε β) (P : β → Prop) (l : List α)
    (h : ∀ a ∈ l, ∃ b, f a = Except.ok b ∧ P b) :
    ∃ bs, exceptMapList f l = Except.ok bs ∧ bs.length = l.length ∧ ∀ b ∈ bs, P b := by
  induction l with
  | nil => exact ⟨[], rfl, rfl, by intro b hb; cases hb⟩
  | cons a as ih =>
    obtain ⟨b, hb, hPb⟩ := h a (List.mem_cons_self a as)
    obtain ⟨bs, hbs, hlen, hall⟩ := ih (fun x hx => h x (List.mem_cons_of_mem a hx))
    refine ⟨b :: bs, ?_, by simp [hlen], ?_⟩
    · simp [exceptMapList, hb, hbs]
    · intro c hc
      rcases List.mem_cons.mp hc with rfl | hmem
      · exact hPb
      · exact hall c hmem

theorem find_single_ok {n m : ℕ} [NeZero n] [NeZero m]
    (DP : Fin n → Fin m → ℝ) (probe_kernel_FT : Fin n → Fin m → ℂ)
    (corrPower sigma : ℝ) (edgeBoundary : ℕ) (minRelativeIntensity minPeakSpacing : ℝ)
    (maxNumPeaks : ℕ) (subpixel : String) (upsample_factor : ℕ) (return_cc : Bool)
    (h : subpixel ∈ (["none", "poly", "multicorr"] : List String)) :
    ∃ r, find_Bragg_disks_single_DP_FK DP probe_kernel_FT corrPower sigma edgeBoundary
        minRelativeIntensity minPeakSpacing maxNumPeaks subpixel upsample_factor
        return_cc (some (RPointList.mk braggCoords [])) = Except.ok r ∧
      r.peaks.coordinates = braggCoords := by
  unfold find_Bragg_disks_single_DP_FK
  rw [if_pos h]
  exact ⟨_, rfl, rfl⟩

/-- C7: an unrecognized `subpixel` value makes `find_Bragg_disks_single_DP_FK`
fail fast with the InvalidConfiguration condition (the assert on line 78),
before any correlation is computed; in this pure embedding no peaks output is
produced, so a caller-supplied peaks PointList is left unchanged. -/
theorem C7_invalid_subpixel_fails_fast {n m : ℕ} [NeZero n] [NeZero m]
    (DP : Fin n → Fin m → ℝ) (probe_kernel_FT : Fin n → Fin m → ℂ)
    (corrPower sigma : ℝ) (edgeBoundary : ℕ) (minRelativeIntensity minPeakSpacing : ℝ)
    (maxNumPeaks : ℕ) (subpixel : String) (upsample_factor : ℕ) (return_cc : Bool)
    (peaks : Option RPointList)
    (h : subpixel ∉ (["none", "poly", "multicorr"] : List String)) :
    find_Bragg_disks_single_DP_FK DP probe_kernel_FT corrPower sigma edgeBoundary
      minRelativeIntensity minPeakSpacing maxNumPeaks subpixel upsample_factor
      return_cc peaks = Except.error DetectError.invalidConfiguration := by
  unfold find_Bragg_disks_single_DP_FK
  rw [if_neg h]

/-- C7 witness: the subpixel string "bogus" is rejected. -/
theorem C7_invalid_subpixel_fails_fast_witness :
    find_Bragg_disks_single_DP_FK (fun _ _ => (0 : ℝ)) (fun _ _ => (0 : ℂ))
      (1 : ℝ) (2 : ℝ) 20 ((5 : ℝ)/1000) (60 : ℝ) 70 "bogus" 4 false
      (none : Option RPointList) (n := 1) (m := 1) =
      Except.error DetectError.invalidConfiguration :=
  C7_invalid_subpixel_fails_fast _ _ _ _ _ _ _ _ _ _ _ _ (by decide)

/-- C6: every element of the clamped correlation surface — the real part of the
inverse transform of `|M|^corrPower · exp(i·angle M)` clamped at 0
(diskdetection.py lines 100-103) — is nonnegative, for any corrPower in [0,1]. -/
theorem C6_surface_nonneg {n m : ℕ} (DP : Fin n → Fin m → ℝ)
    (probe_kernel_FT : Fin n → Fin m → ℂ) (corrPower : ℝ)
    (h0 : 0 ≤ corrPower) (h1 : corrPower ≤ 1) (x : Fin n) (y : Fin m) :
    0 ≤ ccOf DP probe_kernel_FT corrPower x y :=
  le_max_right _ 0

/-- C6 witness: the surface of the impulse pattern at corrPower 1/2 is
nonnegative at the origin. -/
theorem C6_surface_nonneg_witness : 0 ≤ ccOf deltaDP onesKernelFT (1/2) 0 0 :=
  C6_surface_nonneg deltaDP onesKernelFT (1/2) (by norm_num) (by norm_num) 0 0

/-- C2 (amended): with `return_cc = true` and a recognized subpixel mode, the
second returned value is the Gaussian-smoothed surface
`gaussian_filter(cc, sigma)` (diskdetection.py line 134), where `cc` is the
clamped correlation surface consumed by the Maxima Extractor — not the raw
`cc` array itself. -/
theorem C2_returned_surface_is_smoothed {n m : ℕ} [NeZero n] [NeZero m]
    (DP : Fin n → Fin m → ℝ) (probe_kernel_FT : Fin n → Fin m → ℂ)
    (corrPower sigma : ℝ) (edgeBoundary : ℕ) (minRelativeIntensity minPeakSpacing : ℝ)
    (maxNumPeaks : ℕ) (subpixel : String) (upsample_factor : ℕ)
    (peaks : Option RPointList)
    (h : subpixel ∈ (["none", "poly", "multicorr"] : List String)) :
    ∃ r, find_Bragg_disks_single_DP_FK DP probe_kernel_FT corrPower sigma edgeBoundary
        minRelativeIntensity minPeakSpacing maxNumPeaks subpixel upsample_factor
        true peaks = Except.ok r ∧
      r.cc = some (gaussianFilter sigma (ccOf DP probe_kernel_FT corrPower)) := by
  unfold find_Bragg_disks_single_DP_FK
  rw [if_pos h]
  exact ⟨_, rfl, rfl⟩

/-- C2 witness (for the amended claim): a concrete 'poly'-mode call. -/
theorem C2_returned_surface_is_smoothed_witness :
    ∃ r, find_Bragg_disks_single_DP_FK deltaDP onesKernelFT (1 : ℝ) (2 : ℝ) 0
        (0 : ℝ) (0 : ℝ) 0 "poly" 4 true (none : Option RPointList) = Except.ok r ∧
      r.cc = some (gaussianFilter 2 (ccOf deltaDP onesKernelFT 1)) :=
  C2_returned_surface_is_smoothed _ _ _ _ _ _ _ _ _ _ _ (by decide)

/-- C8: in 'multicorr' mode the per-peak DFT-upsampling pass refines positions
only — the intensity column appended to the resulting PointList equals the
intensity column produced by the Maxima Extractor. -/
theorem C8_multicorr_preserves_intensity {n m : ℕ} [NeZero n] [NeZero m]
    (DP : Fin n → Fin m → ℝ) (probe_kernel_FT : Fin n → Fin m → ℂ)
    (corrPower sigma : ℝ) (edgeBoundary : ℕ) (minRelativeIntensity minPeakSpacing : ℝ)
    (maxNumPeaks : ℕ) (upsample_factor : ℕ) (return_cc : Bool)
    (peaks : Option RPointList) :
    ∃ r, find_Bragg_disks_single_DP_FK DP probe_kernel_FT corrPower sigma edgeBoundary
        minRelativeIntensity minPeakSpacing maxNumPeaks "multicorr" upsample_factor
        return_cc peaks = Except.ok r ∧
      ((r.peaks.data.drop
          (peaks.getD (RPointList.mk braggCoords [])).data.length).map RPeak.intensity) =
        (get_maxima_2D (ccOf DP probe_kernel_FT corrPower) sigma edgeBoundary
          minRelativeIntensity minPeakSpacing maxNumPeaks true).map (fun t => t.2.2) := by
  unfold find_Bragg_disks_single_DP_FK
  rw [if_pos (by decide)]
  refine ⟨_, rfl, ?_⟩
  rw [if_neg (by decide), if_neg (by decide)]
  rw [List.drop_left, List.map_map, List.map_map]
  rfl

/-- C9: full-scan detection returns a PointListArray of exactly the scan-grid
shape `(R_Nx, R_Ny)` — `R_Nx` rows of `R_Ny` cells, visited row-major — and
every cell (including empty ones) is a PointList with the declared
`('qx','qy','intensity')` float schema. -/
theorem C9_full_scan_grid_shape {rn rm qn qm : ℕ} [NeZero qn] [NeZero qm]
    (dc : DataCube rn rm qn qm) (probe : Fin qn → Fin qm → ℝ)
    (corrPower sigma : ℝ) (edgeBoundary : ℕ) (minRelativeIntensity minPeakSpacing : ℝ)
    (maxNumPeaks : ℕ) (subpixel : String) (upsample_factor : ℕ)
    (h : subpixel ∈ (["none", "poly", "multicorr"] : List String)) :
    ∃ g, find_Bragg_disks dc probe corrPower sigma edgeBoundary minRelativeIntensity
        minPeakSpacing maxNumPeaks subpixel upsample_factor = Except.ok g ∧
      g.shape = (rn, rm) ∧ g.coordinates = braggCoords ∧ g.cells.length = rn ∧
      (∀ row ∈ g.cells, row.length = rm ∧
        ∀ cell ∈ row, cell.coordinates = braggCoords) := by
  obtain ⟨cells, hc, hlen, hall⟩ :=
    exceptMapList_ok
      (fun rx => exceptMapList (fun ry =>
          Except.map FBDResult.peaks
            (find_Bragg_disks_single_DP_FK (dc.data rx ry)
              (fun k l => (starRingEnd ℂ) (fft2 (fun x y => ((probe x y : ℝ) : ℂ)) k l))
              corrPower sigma edgeBoundary minRelativeIntensity minPeakSpacing maxNumPeaks
              subpixel upsample_factor false (some (RPointList.mk braggCoords []))))
        (List.finRange rm))
      (fun row => row.length = rm ∧ ∀ cell ∈ row, cell.coordinates = braggCoords)
      (List.finRange rn)
      (fun rx _ => by
        obtain ⟨row, hrow, hrlen, hrall⟩ :=
          exceptMapList_ok
            (fun ry => Except.map FBDResult.peaks
              (find_Bragg_disks_single_DP_FK (dc.data rx ry)
                (fun k l => (starRingEnd ℂ) (fft2 (fun x y => ((probe x y : ℝ) : ℂ)) k l))
                corrPower sigma edgeBoundary minRelativeIntensity minPeakSpacing maxNumPeaks
                subpixel upsample_factor false (some (RPointList.mk braggCoords []))))
            (fun cell => cell.coordinates = braggCoords)
            (List.finRange rm)
            (fun ry _ => by
              obtain ⟨r, hr, hcoords⟩ := find_single_ok (dc.data rx ry)
                (fun k l => (starRingEnd ℂ) (fft2 (fun x y => ((probe x y : ℝ) : ℂ)) k l))
                corrPower sigma edgeBoundary minRelativeIntensity minPeakSpacing maxNumPeaks
                subpixel upsample_factor false h
              exact ⟨r.peaks, by simp only [hr]; rfl, hcoords⟩)
        exact ⟨row, hrow, by rw [hrlen, List.length_finRange], hrall⟩)
  unfold find_Bragg_disks
  rw [hc]
  refine ⟨_, rfl, rfl, rfl, ?_, hall⟩
  rw [hlen, List.length_finRange]

/-- C9 witness: a 1×1 scan of 1×1 patterns in 'poly' mode. -/
theorem C9_full_scan_grid_shape_witness :
    ∃ g, find_Bragg_disks (DataCube.mk (fun _ _ _ _ => (0 : ℝ)) : DataCube 1 1 1 1)
        (fun _ _ => (0 : ℝ)) (1 : ℝ) (2 : ℝ) 20 ((5 : ℝ)/1000) (60 : ℝ) 70 "poly" 4 =
        Except.ok g ∧
      g.shape = (1, 1) ∧ g.coordinates = braggCoords ∧ g.cells.length = 1 ∧
      (∀ row ∈ g.cells, row.length = 1 ∧
        ∀ cell ∈ row, cell.coordinates = braggCoords) :=
  C9_full_scan_grid_shape _ _ _ _ _ _ _ _ _ _ (by decide)

/-! ### The returned surface is smoothed, not raw: concrete evaluation -/

theorem hybridPow_one (z : ℂ) : hybridPow 1 z = z := by
  unfold hybridPow
  rw [Real.rpow_one, mul_comm Complex.I ((z.arg : ℝ) : ℂ)]
  exact Complex.abs_mul_exp_arg_mul_I z

theorem fft2_delta (k l : Fin 2) :
    fft2 (fun x y => ((deltaDP x y : ℝ) : ℂ)) k l = 1 := by
  unfold fft2 deltaDP
  rw [Fin.sum_univ_two, Fin.sum_univ_two, Fin.sum_univ_two]
  norm_num

theorem cexp_pi_half : Complex.exp ((2 * (Real.pi : ℂ) * Complex.I) * (1 / 2)) = -1 := by
  have h : (2 * (Real.pi : ℂ) * Complex.I) * (1 / 2) = (Real.pi : ℂ) * Complex.I := by
    ring
  rw [h, Complex.exp_pi_mul_I]

theorem cexp_two_pi : Complex.exp ((2 * (Real.pi : ℂ) * Complex.I) * 1) = 1 := by
  have h : (2 * (Real.pi : ℂ) * Complex.I) * 1 = 2 * (Real.pi : ℂ) * Complex.I := by
    ring
  rw [h]
  exact Complex.exp_two_pi_mul_I

theorem ifft2_ones (x y : Fin 2) :
    ifft2 (fun _ _ => (1 : ℂ)) x y = if x = 0 ∧ y = 0 then 1 else 0 := by
  unfold ifft2
  rw [Fin.sum_univ_two, Fin.sum_univ_two, Fin.sum_univ_two]
  fin_cases x <;> fin_cases y <;>
    norm_num [cexp_pi_half, cexp_two_pi]

theorem cccOf_delta (k l : Fin 2) : cccOf deltaDP onesKernelFT 1 k l = 1 := by
  unfold cccOf onesKernelFT
  rw [fft2_delta, mul_one, hybridPow_one]

theorem ccOf_delta : ccOf deltaDP onesKernelFT 1 = deltaDP := by
  funext x y
  unfold ccOf get_cross_correlation_fk
  have hifft : ifft2 (cccOf deltaDP onesKernelFT 1) x y = ifft2 (fun _ _ => 1) x y := by
    unfold ifft2
    congr 1
    exact Finset.sum_congr rfl (fun k _ => Finset.sum_congr rfl (fun l _ => by
      rw [cccOf_delta]))
  rw [hifft, ifft2_ones]
  unfold deltaDP
  by_cases hxy : x = 0 ∧ y = 0
  · rw [if_pos hxy, if_pos hxy]
    norm_num
  · rw [if_neg hxy, if_neg hxy]
    norm_num

theorem deltaDP_factor (a b : Fin 2) :
    deltaDP a b = (if a = 0 then (1:ℝ) else 0) * (if b = 0 then 1 else 0) := by
  unfold deltaDP
  by_cases ha : a = 0 <;> by_cases hb : b = 0 <;> simp [ha, hb]

theorem gaussRadius_two : gaussRadius 2 = 8 := by
  unfold gaussRadius
  rw [Nat.floor_eq_iff (by norm_num)]
  norm_num

theorem gaussianFilter_delta_eq : gaussianFilter 2 deltaDP 0 0 = deltaMass * deltaMass := by
  unfold gaussianFilter deltaMass
  simp only [gaussRadius_two, Nat.cast_ofNat]
  rw [Finset.sum_mul_sum]
  refine Finset.sum_congr rfl (fun i _ => Finset.sum_congr rfl (fun j _ => ?_))
  rw [deltaDP_factor]
  simp only [Fin.val_zero, Nat.cast_zero, zero_sub]
  ring

theorem wrapIdx_two_neg_one_ne_zero : wrapIdx 2 (-1) ≠ 0 := by decide

theorem deltaMass_lt_one : deltaMass < 1 := by
  have hT0 : (0:ℝ) < ∑ j ∈ Finset.Icc (-(8:ℤ)) 8, Real.exp (-((j:ℝ))^2 / (2 * 2^2)) :=
    Finset.sum_pos (fun i _ => Real.exp_pos _) ⟨0, by decide⟩
  have hw : ∀ i : ℤ, gaussWeight 2 i =
      Real.exp (-((i:ℝ))^2 / (2 * 2^2)) /
        ∑ j ∈ Finset.Icc (-(8:ℤ)) 8, Real.exp (-((j:ℝ))^2 / (2 * 2^2)) := by
    intro i
    unfold gaussWeight
    simp only [gaussRadius_two, Nat.cast_ofNat]
  have hform : deltaMass =
      (∑ i ∈ Finset.Icc (-(8:ℤ)) 8,
        Real.exp (-((i:ℝ))^2 / (2 * 2^2)) * (if wrapIdx 2 (-i) = 0 then (1:ℝ) else 0)) /
        ∑ j ∈ Finset.Icc (-(8:ℤ)) 8, Real.exp (-((j:ℝ))^2 / (2 * 2^2)) := by
    unfold deltaMass
    rw [Finset.sum_div]
    refine Finset.sum_congr rfl (fun i _ => ?_)
    rw [hw i, div_mul_eq_mul_div]
  rw [hform, div_lt_one hT0]
  refine Finset.sum_lt_sum (fun i _ => ?_) ⟨1, by decide, ?_⟩
  · by_cases hq : wrapIdx 2 (-i) = 0
    · rw [if_pos hq, mul_one]
    · rw [if_neg hq, mul_zero]
      exact (Real.exp_pos _).le
  · rw [if_neg wrapIdx_two_neg_one_ne_zero, mul_zero]
    exact Real.exp_pos _

theorem deltaMass_nonneg : 0 ≤ deltaMass := by
  unfold deltaMass
  refine Finset.sum_nonneg (fun i _ => ?_)
  by_cases hq : wrapIdx 2 (-i) = 0
  · rw [if_pos hq, mul_one]
    unfold gaussWeight
    refine div_nonneg (Real.exp_pos _).le ?_
    exact Finset.sum_nonneg (fun j _ => (Real.exp_pos _).le)
  · rw [if_neg hq, mul_zero]

theorem gaussianFilter_delta_lt_one : gaussianFilter 2 deltaDP 0 0 < 1 := by
  rw [gaussianFilter_delta_eq]
  calc deltaMass * deltaMass ≤ 1 * deltaMass :=
        mul_le_mul_of_nonneg_right deltaMass_lt_one.le deltaMass_nonneg
    _ = deltaMass := one_mul _
    _ < 1 := deltaMass_lt_one

/-- C2 (counterexample to the claim as stated): for the 2×2 impulse pattern
against the all-ones kernel with corrPower 1 and sigma 2, the second returned
value of `find_Bragg_disks_single_DP_FK` with `return_cc = true` is NOT the
clamped correlation surface consumed by the Maxima Extractor: the code returns
`gaussian_filter(cc, sigma)` (diskdetection.py line 134), whose central value is
strictly below the raw surface's central value 1. -/
theorem C2_raw_surface_counterexample :
    resultCC (find_Bragg_disks_single_DP_FK deltaDP onesKernelFT 1 2 0 0 0 0 "none" 4 true
      (none : Option RPointList)) ≠ some (ccOf deltaDP onesKernelFT 1) := by
  have heval : resultCC (find_Bragg_disks_single_DP_FK deltaDP onesKernelFT 1 2 0 0 0 0
      "none" 4 true (none : Option RPointList)) =
      some (gaussianFilter 2 (ccOf deltaDP onesKernelFT 1)) := by
    unfold find_Bragg_disks_single_DP_FK
    rw [if_pos (by decide)]
    rfl
  rw [heval, ccOf_delta]
  intro hcontra
  have h00 := congrFun (congrFun (Option.some.inj hcontra) 0) 0
  rw [show deltaDP 0 0 = 1 from by unfold deltaDP; norm_num] at h00
  exact absurd h00 (ne_of_lt gaussianFilter_delta_lt_one)

/-- C8 witness: a concrete 'multicorr' call on the 2×2 impulse pattern. -/
theorem C8_multicorr_preserves_intensity_witness :
    ∃ r, find_Bragg_disks_single_DP_FK deltaDP onesKernelFT (1 : ℝ) (2 : ℝ) 0
        (0 : ℝ) (0 : ℝ) 0 "multicorr" 4 false (none : Option RPointList) = Except.ok r ∧
      ((r.peaks.data.drop
          ((none : Option RPointList).getD
            (RPointList.mk braggCoords [])).data.length).map RPeak.intensity) =
        (get_maxima_2D (ccOf deltaDP onesKernelFT 1) 2 0 0 0 0 true).map
          (fun t => t.2.2) :=
  C8_multicorr_preserves_intensity deltaDP onesKernelFT 1 2 0 0 0 0 4 false none
